import Mathlib

/-!
# Verification of the rate-limiter core

A shallow embedding of the rate-limiter's admission algorithms and
orchestration logic, translated from the Go source and the embedded Redis
Lua scripts, together with theorems settling the specification's claims.

Conventions:
* timestamps and durations are `Int` nanoseconds (Go `int64` /
  `time.Duration`); token counts and capacities are `Int` (Go `int64`);
* Go's `int64` division truncates toward zero, embedded as `Int.tdiv`;
* Lua's `math.floor(a / b)` is real floor division, embedded as `Int.fdiv`
  (Lua numbers are IEEE doubles, exact on the integral ranges involved);
* the mutex/lock structure of the Go code is dropped: each operation is a
  pure state transition, which is precisely the serialized semantics the
  locks enforce.
-/

namespace RateLimiter

/-- In-memory token bucket (struct `tokenBucket` in token_bucket.go):
`capacity`/`tokens` are `int64`; `refillRate` is a `time.Duration` in
nanoseconds; `lastRefill` is a timestamp in nanoseconds. -/
structure TokenBucket where
  capacity : Int
  tokens : Int
  refillRate : Int
  lastRefill : Int
deriving Repr, DecidableEq

/-- Embeds `NewTokenBucket`: starts with a full bucket, anchored at creation time. -/
def NewTokenBucket (capacity refillRate now : Int) : TokenBucket :=
  { capacity := capacity, tokens := capacity, refillRate := refillRate,
    lastRefill := now }

/-- Embeds `tokenBucket.refill`: adds one token per whole elapsed refill period and
advances `lastRefill` by exactly the processed periods (Go `int64` division
truncates toward zero, hence `Int.tdiv`). -/
def TokenBucket.refill (tb : TokenBucket) (now : Int) : TokenBucket :=
  let elapsed := now - tb.lastRefill
  let refillPeriods := elapsed.tdiv tb.refillRate
  if 0 < refillPeriods then
    { tb with
      tokens := min tb.capacity (tb.tokens + refillPeriods),
      lastRefill := tb.lastRefill + refillPeriods * tb.refillRate }
  else
    tb

/-- Embeds `tokenBucket.TryConsume`: rejects negative requests, refills, then
consumes if enough tokens remain. Returns the new state and the decision. -/
def TokenBucket.tryConsume (tb : TokenBucket) (tokens now : Int) :
    TokenBucket × Bool :=
  if tokens < 0 then
    (tb, false)
  else
    let tb2 := tb.refill now
    if tokens ≤ tb2.tokens then
      ({ tb2 with tokens := tb2.tokens - tokens }, true)
    else
      (tb2, false)

/-- Embeds `tokenBucket.GetStatus`: refills, then reports
`(tokensLeft, capacity, nextRefill)`; the refill also updates the stored
state (the method mutates the bucket in place). -/
def TokenBucket.getStatus (tb : TokenBucket) (now : Int) :
    TokenBucket × Int × Int × Int :=
  let tb2 := tb.refill now
  (tb2, tb2.tokens, tb2.capacity, tb2.lastRefill + tb2.refillRate)

/-- In-memory leaky bucket (struct `leakyBucket` in leacky_bucket.go). -/
structure LeakyBucket where
  capacity : Int
  queue : Int
  leakRate : Int
  lastLeak : Int
deriving Repr, DecidableEq

/-- Embeds `NewLeakyBucket`: starts with an empty queue, anchored at creation time. -/
def NewLeakyBucket (capacity leakRate now : Int) : LeakyBucket :=
  { capacity := capacity, queue := 0, leakRate := leakRate, lastLeak := now }

/-- Embeds `leakyBucket.leak`: removes one request per whole elapsed leak period
(at most the queue length) and advances `lastLeak` by exactly the drained
periods. -/
def LeakyBucket.leak (lb : LeakyBucket) (now : Int) : LeakyBucket :=
  let elapsed := now - lb.lastLeak
  let leakPeriods := elapsed.tdiv lb.leakRate
  if 0 < leakPeriods ∧ 0 < lb.queue then
    let requestsToLeak := min leakPeriods lb.queue
    { lb with
      queue := lb.queue - requestsToLeak,
      lastLeak := lb.lastLeak + requestsToLeak * lb.leakRate }
  else
    lb

/-- Embeds `leakyBucket.TryAdd`: rejects negative requests, leaks, then enqueues if
the result stays within capacity. -/
def LeakyBucket.tryAdd (lb : LeakyBucket) (requests now : Int) :
    LeakyBucket × Bool :=
  if requests < 0 then
    (lb, false)
  else
    let lb2 := lb.leak now
    if lb2.capacity < lb2.queue + requests then
      (lb2, false)
    else
      ({ lb2 with queue := lb2.queue + requests }, true)

/-- Embeds `leakyBucket.GetStatus`: leaks, then reports
`(queueLength, capacity, nextLeak)`. -/
def LeakyBucket.getStatus (lb : LeakyBucket) (now : Int) :
    LeakyBucket × Int × Int × Int :=
  let lb2 := lb.leak now
  (lb2, lb2.queue, lb2.capacity, lb2.lastLeak + lb2.leakRate)

-- Quick sanity checks of the transitions on concrete values.
example :
    ((NewTokenBucket 10 1000000000 0).tryConsume 5 0).1.tokens = 5 := by decide
example :
    ((NewTokenBucket 10 1000000000 0).tryConsume 11 0).2 = false := by decide
example :
    ((NewLeakyBucket 5 200000000 0).tryAdd 5 0).2 = true := by decide

/-! ## Redis-backed engines (the embedded Lua scripts and their Go wrappers) -/

/-- A stored remote record for one key: `absent` (no key in Redis),
`corrupt` (the key exists but its payload does not parse), or a parsed
record. -/
inductive Stored (α : Type) where
  | absent : Stored α
  | corrupt : Stored α
  | valid : α → Stored α
deriving Repr, DecidableEq

/-- Embeds `HasState` (both Redis bucket types): `GET` succeeds exactly when the
key exists, whether or not its payload parses. -/
def Stored.hasState {α : Type} : Stored α → Bool
  | .absent => false
  | _ => true

/-- The serialized token-bucket record
`{algorithm, capacity, tokens, refill_rate_ns, last_refill_ns, last_updated}`
(the constant `algorithm` tag is omitted). -/
structure TBRecord where
  capacity : Int
  tokens : Int
  refillRateNs : Int
  lastRefillNs : Int
  lastUpdated : Int
deriving Repr, DecidableEq

/-- The serialized leaky-bucket record
`{algorithm, capacity, queue_length, leak_rate_ns, last_leak_ns,
last_updated}`. -/
structure LBRecord where
  capacity : Int
  queueLength : Int
  leakRateNs : Int
  lastLeakNs : Int
  lastUpdated : Int
deriving Repr, DecidableEq

/-- Body of the token-bucket Lua script once `current_tokens` and
`last_refill_ns` are in hand: refill (`math.floor` is floor division,
`Int.fdiv`), then consume and `SET` the updated record; returns the new
stored record and the script's return value. -/
def luaTokenBucketCore (currentTokens lastRefillNs tokensNeeded capacity
    refillRateNs nowNs : Int) : Stored TBRecord × Option Int :=
  let timePassedNs := nowNs - lastRefillNs
  let tokensToAdd := timePassedNs.fdiv refillRateNs
  let ct := if 0 < tokensToAdd then min capacity (currentTokens + tokensToAdd)
            else currentTokens
  let lr := if 0 < tokensToAdd then lastRefillNs + tokensToAdd * refillRateNs
            else lastRefillNs
  if tokensNeeded ≤ ct then
    (.valid ⟨capacity, ct - tokensNeeded, refillRateNs, lr, nowNs⟩, some 1)
  else
    (.valid ⟨capacity, ct, refillRateNs, lr, nowNs⟩, some 0)

/-- The token-bucket Lua script run by `EVAL`: a missing key starts a full
bucket anchored at `now`; an unparsable payload makes `cjson.decode` raise,
aborting the script, so `EVAL` reports an error and the record is left
untouched. -/
def luaTokenBucketScript (stored : Stored TBRecord)
    (tokensNeeded capacity refillRateNs nowNs : Int) :
    Stored TBRecord × Option Int :=
  match stored with
  | .corrupt => (.corrupt, none)
  | .absent => luaTokenBucketCore capacity nowNs tokensNeeded capacity
      refillRateNs nowNs
  | .valid rec => luaTokenBucketCore rec.tokens rec.lastRefillNs tokensNeeded
      capacity refillRateNs nowNs

/-- Body of the leaky-bucket Lua script: leak, then enqueue if within
capacity; the record is `SET` on both outcomes. -/
def luaLeakyBucketCore (currentQueue lastLeakNs requestsToAdd capacity
    leakRateNs nowNs : Int) : Stored LBRecord × Option Int :=
  let timePassedNs := nowNs - lastLeakNs
  let leakPeriods := timePassedNs.fdiv leakRateNs
  let toLeak := if 0 < leakPeriods ∧ 0 < currentQueue
                then min leakPeriods currentQueue else 0
  let cq := currentQueue - toLeak
  let ll := lastLeakNs + toLeak * leakRateNs
  if cq + requestsToAdd ≤ capacity then
    (.valid ⟨capacity, cq + requestsToAdd, leakRateNs, ll, nowNs⟩, some 1)
  else
    (.valid ⟨capacity, cq, leakRateNs, ll, nowNs⟩, some 0)

/-- The leaky-bucket Lua script run by `EVAL`: a missing key starts an
empty queue anchored at `now`; a corrupt payload aborts the script. -/
def luaLeakyBucketScript (stored : Stored LBRecord)
    (requestsToAdd capacity leakRateNs nowNs : Int) :
    Stored LBRecord × Option Int :=
  match stored with
  | .corrupt => (.corrupt, none)
  | .absent => luaLeakyBucketCore 0 nowNs requestsToAdd capacity leakRateNs
      nowNs
  | .valid rec => luaLeakyBucketCore rec.queueLength rec.lastLeakNs
      requestsToAdd capacity leakRateNs nowNs

/-- Models `client.Eval` as seen by the Go wrappers: when the shard is unreachable
(or the call times out) it returns an error and the stored record is not
observed to change; otherwise the script runs atomically. -/
def evalTokenBucket (reachable : Bool) (stored : Stored TBRecord)
    (tokensNeeded capacity refillRateNs nowNs : Int) :
    Stored TBRecord × Option Int :=
  if reachable then
    luaTokenBucketScript stored tokensNeeded capacity refillRateNs nowNs
  else
    (stored, none)

/-- Models `client.Eval` for the leaky-bucket script. -/
def evalLeakyBucket (reachable : Bool) (stored : Stored LBRecord)
    (requestsToAdd capacity leakRateNs nowNs : Int) :
    Stored LBRecord × Option Int :=
  if reachable then
    luaLeakyBucketScript stored requestsToAdd capacity leakRateNs nowNs
  else
    (stored, none)

/-- Embeds `TokenBucketRedis.TryConsume`: rejects negative requests before calling
Redis; an `Eval` error yields `false`; otherwise success iff the script
returned `1`. -/
def TokenBucketRedis.tryConsume (reachable : Bool) (stored : Stored TBRecord)
    (capacity refillRate tokens now : Int) : Stored TBRecord × Bool :=
  if tokens < 0 then
    (stored, false)
  else
    match evalTokenBucket reachable stored tokens capacity refillRate now with
    | (stored2, none) => (stored2, false)
    | (stored2, some r) => (stored2, r == 1)

/-- Embeds `LeakyBucketRedis.TryAdd`: same error handling as the token-bucket
wrapper. -/
def LeakyBucketRedis.tryAdd (reachable : Bool) (stored : Stored LBRecord)
    (capacity leakRate requests now : Int) : Stored LBRecord × Bool :=
  if requests < 0 then
    (stored, false)
  else
    match evalLeakyBucket reachable stored requests capacity leakRate now with
    | (stored2, none) => (stored2, false)
    | (stored2, some r) => (stored2, r == 1)

/-- Embeds `TokenBucketRedis.GetStatus`: a missing key or an unmarshal failure
returns the defaults `(capacity, capacity, now + refillRate)`; otherwise the
refill is simulated (without writing back) using Go `int64` division.
Returns `(tokensLeft, capacity, nextRefillNs)`. -/
def TokenBucketRedis.getStatus (stored : Stored TBRecord)
    (capacity refillRate now : Int) : Int × Int × Int :=
  match stored with
  | .absent => (capacity, capacity, now + refillRate)
  | .corrupt => (capacity, capacity, now + refillRate)
  | .valid data =>
    let timePassed := now - data.lastRefillNs
    let tokensToAdd := timePassed.tdiv data.refillRateNs
    let currentTokens := data.tokens + tokensToAdd
    let currentTokens :=
      if data.capacity < currentTokens then data.capacity else currentTokens
    (currentTokens, data.capacity, data.lastRefillNs + data.refillRateNs)

/-- Embeds `LeakyBucketRedis.GetStatus`: a missing key or an unmarshal failure
returns the defaults `(0, capacity, now + leakRate)`; otherwise the leak is
simulated. Returns `(queueLength, capacity, nextLeakNs)`. -/
def LeakyBucketRedis.getStatus (stored : Stored LBRecord)
    (capacity leakRate now : Int) : Int × Int × Int :=
  match stored with
  | .absent => (0, capacity, now + leakRate)
  | .corrupt => (0, capacity, now + leakRate)
  | .valid data =>
    let timePassed := now - data.lastLeakNs
    let leakPeriods := timePassed.tdiv data.leakRateNs
    let currentQueue := data.queueLength - leakPeriods
    let currentQueue := if currentQueue < 0 then 0 else currentQueue
    (currentQueue, data.capacity, data.lastLeakNs + data.leakRateNs)

/-! ## Admission orchestrator (`RedisRateLimiterService`) -/

/-- Embeds `models.AlgorithmStatus`: per-algorithm status block (durations and
timestamps in nanoseconds). -/
structure AlgorithmStatus where
  algorithm : String
  tokensLeft : Int
  capacity : Int
  refillRate : Int
  nextRefillTime : Int
  isBlocked : Bool
  hasState : Bool
deriving Repr, DecidableEq

/-- Embeds `RedisRateLimiterService.Acquire` specialised to `token_bucket`, with
the environment abstracted: `clientResolved` models `GetClient(key) != nil`
(`RedisManager.GetClient` always returns a non-nil pointer, so it is `true`
in the running system); `reachable` models whether the `Eval` call against
the resolved shard succeeds; `stored` is the remote record and `fallback`
the in-memory per-key bucket. Returns the new remote record, the new
fallback bucket, the decision, and whether the fallback path was taken. -/
def serviceAcquireTokenBucket (clientResolved reachable : Bool)
    (stored : Stored TBRecord) (fallback : TokenBucket)
    (capacity refillRate tokens now : Int) :
    Stored TBRecord × TokenBucket × Bool × Bool :=
  if clientResolved then
    let (stored2, ok) :=
      TokenBucketRedis.tryConsume reachable stored capacity refillRate tokens
        now
    (stored2, fallback, ok, false)
  else
    let (fb2, ok) := fallback.tryConsume tokens now
    (stored, fb2, ok, true)

/-- Embeds `RedisRateLimiterService.Acquire` specialised to `leaky_bucket`. -/
def serviceAcquireLeakyBucket (clientResolved reachable : Bool)
    (stored : Stored LBRecord) (fallback : LeakyBucket)
    (capacity leakRate requests now : Int) :
    Stored LBRecord × LeakyBucket × Bool × Bool :=
  if clientResolved then
    let (stored2, ok) :=
      LeakyBucketRedis.tryAdd reachable stored capacity leakRate requests now
    (stored2, fallback, ok, false)
  else
    let (fb2, ok) := fallback.tryAdd requests now
    (stored, fb2, ok, true)

/-- Embeds `RedisRateLimiterService.getTokenBucketStatus` (Redis path): if the key
has no state, report defaults with `hasState = false`; otherwise read the
simulated status; `isBlocked` iff no tokens are left. -/
def getTokenBucketStatus (stored : Stored TBRecord)
    (defaultCapacity defaultRefill now : Int) : AlgorithmStatus :=
  if stored.hasState = false then
    { algorithm := "token_bucket", tokensLeft := defaultCapacity,
      capacity := defaultCapacity, refillRate := defaultRefill,
      nextRefillTime := now + defaultRefill, isBlocked := false,
      hasState := false }
  else
    let (tokensLeft, capacity, nextRefill) :=
      TokenBucketRedis.getStatus stored defaultCapacity defaultRefill now
    { algorithm := "token_bucket", tokensLeft := tokensLeft,
      capacity := capacity, refillRate := defaultRefill,
      nextRefillTime := nextRefill, isBlocked := tokensLeft == 0,
      hasState := true }

/-- Embeds `RedisRateLimiterService.getLeakyBucketStatus` (Redis path): the
reported `tokensLeft` is the available space `capacity - queueLength`;
`isBlocked` iff the queue is at (or beyond) capacity. -/
def getLeakyBucketStatus (stored : Stored LBRecord)
    (defaultCapacity defaultRefill now : Int) : AlgorithmStatus :=
  if stored.hasState = false then
    { algorithm := "leaky_bucket", tokensLeft := defaultCapacity,
      capacity := defaultCapacity, refillRate := defaultRefill,
      nextRefillTime := now + defaultRefill, isBlocked := false,
      hasState := false }
  else
    let (queueLength, capacity, nextLeak) :=
      LeakyBucketRedis.getStatus stored defaultCapacity defaultRefill now
    { algorithm := "leaky_bucket", tokensLeft := capacity - queueLength,
      capacity := capacity, refillRate := defaultRefill,
      nextRefillTime := nextLeak, isBlocked := decide (capacity ≤ queueLength),
      hasState := true }

/-- Embeds `RedisRateLimiterService.getInMemoryTokenBucketStatus` for an existing
fallback bucket. -/
def getInMemoryTokenBucketStatus (tb : TokenBucket) (defaultRefill now : Int) :
    AlgorithmStatus :=
  let (_, tokensLeft, capacity, nextRefill) := tb.getStatus now
  { algorithm := "token_bucket", tokensLeft := tokensLeft,
    capacity := capacity, refillRate := defaultRefill,
    nextRefillTime := nextRefill, isBlocked := tokensLeft == 0,
    hasState := true }

/-- Embeds `RedisRateLimiterService.getInMemoryLeakyBucketStatus` for an existing
fallback bucket. -/
def getInMemoryLeakyBucketStatus (lb : LeakyBucket) (defaultRefill now : Int) :
    AlgorithmStatus :=
  let (_, queueLength, capacity, nextLeak) := lb.getStatus now
  { algorithm := "leaky_bucket", tokensLeft := capacity - queueLength,
    capacity := capacity, refillRate := defaultRefill,
    nextRefillTime := nextLeak, isBlocked := decide (capacity ≤ queueLength),
    hasState := true }

/-- The primary-algorithm selection in `RedisRateLimiterService.GetStatus`:
given both per-algorithm statuses, pick the primary algorithm name and
status block exactly as the nested if/else in the Go code does. -/
def selectPrimary (tbs lbs : AlgorithmStatus) : String × AlgorithmStatus :=
  if tbs.hasState ∧ lbs.hasState then
    if tbs.tokensLeft < tbs.capacity then ("token_bucket", tbs)
    else if lbs.tokensLeft < lbs.capacity then ("leaky_bucket", lbs)
    else ("token_bucket", tbs)
  else if tbs.hasState then ("token_bucket", tbs)
  else if lbs.hasState then ("leaky_bucket", lbs)
  else ("token_bucket", tbs)

/-! ## Shard router (`RedisManager`) -/

/-- One step of the bitwise CRC-32 with the reversed IEEE polynomial
`0xEDB88320`, the function `hash/crc32.ChecksumIEEE` computes. -/
def crc32Bit (c : Nat) : Nat :=
  if c % 2 = 1 then (c / 2) ^^^ 0xEDB88320 else c / 2

/-- Fold one input byte into the CRC-32 accumulator. -/
def crc32Byte (crc b : Nat) : Nat :=
  (List.range 8).foldl (fun c _ => crc32Bit c) (crc ^^^ b)

/-- Embeds `crc32.ChecksumIEEE` over the bytes of the key: initial value
`0xFFFFFFFF`, bitwise update, final complement. -/
def crc32ChecksumIEEE (data : List Nat) : Nat :=
  (data.foldl crc32Byte 0xFFFFFFFF) ^^^ 0xFFFFFFFF

set_option maxRecDepth 100000

-- The standard CRC-32 check value ties the embedding to the real function:
-- crc32.ChecksumIEEE([]byte("123456789")) = 0xCBF43926.
example :
    crc32ChecksumIEEE [49, 50, 51, 52, 53, 54, 55, 56, 57] = 0xCBF43926 := by
  decide

/-- Embeds `RedisManager.GetClientIndex`: CRC-32 (IEEE) of the key, modulo the
number of configured clients (`int(hash)` of a `uint32` is non-negative on
64-bit Go, so Go's `%` agrees with `Nat.mod`). -/
def RedisManager.getClientIndex (userID : List Nat) (numClients : Nat) : Nat :=
  crc32ChecksumIEEE userID % numClients

/-! ## HTTP handler (`Handlers.AcquireHandler`) -/

/-- The token-count normalization in `AcquireHandler`:
`if req.Tokens <= 0 { req.Tokens = 1 }`; the result is what is passed to
`RateLimiter.Acquire`. -/
def acquireHandlerTokens (tokens : Int) : Int :=
  if tokens ≤ 0 then 1 else tokens

/-! ## Operation sequences -/

/-- An observable operation on one bucket: an admission attempt or a status
query (the in-memory status query also applies the lazy refill/drain). -/
inductive BucketOp where
  | acquire (n now : Int)
  | status (now : Int)
deriving Repr, DecidableEq

/-- State reached by one operation on an in-memory token bucket. -/
def TokenBucket.applyOp (tb : TokenBucket) : BucketOp → TokenBucket
  | .acquire n now => (tb.tryConsume n now).1
  | .status now => (tb.getStatus now).1

/-- State reached by a sequence of operations on an in-memory token
bucket. -/
def TokenBucket.runOps (tb : TokenBucket) (ops : List BucketOp) : TokenBucket :=
  ops.foldl TokenBucket.applyOp tb

/-- State reached by one operation on an in-memory leaky bucket. -/
def LeakyBucket.applyOp (lb : LeakyBucket) : BucketOp → LeakyBucket
  | .acquire n now => (lb.tryAdd n now).1
  | .status now => (lb.getStatus now).1

/-- State reached by a sequence of operations on an in-memory leaky
bucket. -/
def LeakyBucket.runOps (lb : LeakyBucket) (ops : List BucketOp) : LeakyBucket :=
  ops.foldl LeakyBucket.applyOp lb

/-- Run a sequence of `(n, now)` admission attempts on the in-memory token
bucket, collecting the decisions. -/
def TokenBucket.runConsume (tb : TokenBucket) :
    List (Int × Int) → TokenBucket × List Bool
  | [] => (tb, [])
  | (n, now) :: rest =>
    let r := tb.tryConsume n now
    let rest2 := r.1.runConsume rest
    (rest2.1, r.2 :: rest2.2)

/-- Run a sequence of `(n, now)` admission attempts through the Redis
token-bucket engine (reachable shard), collecting the decisions. -/
def luaRunTokenBucket (stored : Stored TBRecord) (capacity refillRate : Int) :
    List (Int × Int) → Stored TBRecord × List Bool
  | [] => (stored, [])
  | (n, now) :: rest =>
    let r := TokenBucketRedis.tryConsume true stored capacity refillRate n now
    let rest2 := luaRunTokenBucket r.1 capacity refillRate rest
    (rest2.1, r.2 :: rest2.2)

/-- Run a sequence of `(n, now)` admission attempts on the in-memory leaky
bucket, collecting the decisions. -/
def LeakyBucket.runAdd (lb : LeakyBucket) :
    List (Int × Int) → LeakyBucket × List Bool
  | [] => (lb, [])
  | (n, now) :: rest =>
    let r := lb.tryAdd n now
    let rest2 := r.1.runAdd rest
    (rest2.1, r.2 :: rest2.2)

/-- Run a sequence of `(n, now)` admission attempts through the Redis
leaky-bucket engine (reachable shard), collecting the decisions. -/
def luaRunLeakyBucket (stored : Stored LBRecord) (capacity leakRate : Int) :
    List (Int × Int) → Stored LBRecord × List Bool
  | [] => (stored, [])
  | (n, now) :: rest =>
    let r := LeakyBucketRedis.tryAdd true stored capacity leakRate n now
    let rest2 := luaRunLeakyBucket r.1 capacity leakRate rest
    (rest2.1, r.2 :: rest2.2)

/-! ## Arithmetic helpers -/

/-- Go's truncated division and Lua's floor division agree whenever the
quotient is positive; otherwise both are non-positive (positive divisor). -/
theorem tdiv_fdiv_agree {e r : Int} (hr : 0 < r) :
    e.tdiv r = e.fdiv r ∨ (e.tdiv r ≤ 0 ∧ e.fdiv r ≤ 0) := by
  rcases le_or_lt 0 e with he | he
  · left
    rw [Int.tdiv_eq_ediv he hr.le, Int.fdiv_eq_ediv _ hr.le]
  · right
    constructor
    · have h1 : 0 ≤ (-e).tdiv r := by
        rw [Int.tdiv_eq_ediv (by omega) hr.le]
        exact Int.ediv_nonneg (by omega) hr.le
      have h2 : (-e).tdiv r = -e.tdiv r := Int.neg_tdiv e r
      omega
    · rw [Int.fdiv_eq_ediv _ hr.le]
      exact (Int.ediv_neg' he hr).le

/-- With a non-negative elapsed time and positive period, the refill's Go
division is the floor of the elapsed periods. -/
theorem elapsed_tdiv_eq_ediv {a r : Int} (ha : 0 ≤ a) (hr : 0 < r) :
    a.tdiv r = a / r :=
  Int.tdiv_eq_ediv ha hr.le

/-- The function `tokenBucket.refill` computes exactly the spec's transition
`level = min(capacity, level + floor(elapsed/period))`,
`anchor += floor(elapsed/period) * period` whenever the state is sane
(`level ≤ capacity`), the period positive, and time has not gone
backwards. -/
theorem refill_fields (tb : TokenBucket) (now : Int) (hp : 0 < tb.refillRate)
    (ht : tb.lastRefill ≤ now) (hlev : tb.tokens ≤ tb.capacity) :
    (tb.refill now).tokens
        = min tb.capacity (tb.tokens + (now - tb.lastRefill) / tb.refillRate)
    ∧ (tb.refill now).lastRefill
        = tb.lastRefill
            + ((now - tb.lastRefill) / tb.refillRate) * tb.refillRate
    ∧ (tb.refill now).capacity = tb.capacity
    ∧ (tb.refill now).refillRate = tb.refillRate := by
  have h0 : (0 : Int) ≤ now - tb.lastRefill := by omega
  have hP0 : 0 ≤ (now - tb.lastRefill) / tb.refillRate :=
    Int.ediv_nonneg h0 hp.le
  unfold TokenBucket.refill
  dsimp only
  rw [elapsed_tdiv_eq_ediv h0 hp]
  rcases lt_or_eq_of_le hP0 with h | h
  · rw [if_pos h]
    exact ⟨rfl, rfl, rfl, rfl⟩
  · rw [if_neg (by omega), ← h]
    exact ⟨by omega, by ring, rfl, rfl⟩

/-- The function `leakyBucket.leak` computes exactly the spec's transition
`drained = min(floor(elapsed/period), level)`, `level -= drained`,
`anchor += drained * period` under the same sanity assumptions. -/
theorem leak_fields (lb : LeakyBucket) (now : Int) (hp : 0 < lb.leakRate)
    (ht : lb.lastLeak ≤ now) (hq : 0 ≤ lb.queue) :
    (lb.leak now).queue
        = lb.queue - min ((now - lb.lastLeak) / lb.leakRate) lb.queue
    ∧ (lb.leak now).lastLeak
        = lb.lastLeak
            + (min ((now - lb.lastLeak) / lb.leakRate) lb.queue) * lb.leakRate
    ∧ (lb.leak now).capacity = lb.capacity
    ∧ (lb.leak now).leakRate = lb.leakRate := by
  have h0 : (0 : Int) ≤ now - lb.lastLeak := by omega
  have hP0 : 0 ≤ (now - lb.lastLeak) / lb.leakRate :=
    Int.ediv_nonneg h0 hp.le
  unfold LeakyBucket.leak
  dsimp only
  rw [elapsed_tdiv_eq_ediv h0 hp]
  by_cases hcond : 0 < (now - lb.lastLeak) / lb.leakRate ∧ 0 < lb.queue
  · rw [if_pos hcond]
    exact ⟨rfl, rfl, rfl, rfl⟩
  · rw [if_neg hcond]
    have hmin : min ((now - lb.lastLeak) / lb.leakRate) lb.queue = 0 := by
      rcases not_and_or.mp hcond with h | h
      · have hz : (now - lb.lastLeak) / lb.leakRate = 0 := by omega
        rw [hz]
        omega
      · have hz : lb.queue = 0 := by omega
        rw [hz]
        omega
    rw [hmin]
    exact ⟨by omega, by ring, rfl, rfl⟩

/-! ## Claim theorems -/

/-- C1. Token bucket transition: from any sane state (`0 ≤ level ≤
capacity`) and any request of `n ≥ 0` permits at time `now ≥ anchorTime`,
`TryConsume` first sets `level = min(capacity, level + floor((now -
anchorTime)/period))` and advances `anchorTime` by exactly that many whole
periods, then succeeds and subtracts `n` iff the refilled level is at least
`n`, leaving the level otherwise unchanged; and the spec's scenario with
capacity 10 and period 1 s: `Acquire(5)` → true with level 5, `Acquire(6)`
→ false with level still 5, after 3 s the status reports 8 tokens, and
`Acquire(8)` → true with level 0. -/
theorem tokenBucket_transition_spec :
    (∀ cap level period anchor now n : Int,
        0 ≤ level → level ≤ cap → 0 ≤ n → 0 < period → anchor ≤ now →
        ((TokenBucket.tryConsume ⟨cap, level, period, anchor⟩ n now).2 = true
          ↔ n ≤ min cap (level + (now - anchor) / period))
        ∧ (TokenBucket.tryConsume ⟨cap, level, period, anchor⟩ n now).1.tokens
            = (if n ≤ min cap (level + (now - anchor) / period)
               then min cap (level + (now - anchor) / period) - n
               else min cap (level + (now - anchor) / period))
        ∧ (TokenBucket.tryConsume
              ⟨cap, level, period, anchor⟩ n now).1.lastRefill
            = anchor + ((now - anchor) / period) * period
        ∧ (TokenBucket.tryConsume ⟨cap, level, period, anchor⟩ n now).1.capacity
            = cap
        ∧ (TokenBucket.tryConsume
              ⟨cap, level, period, anchor⟩ n now).1.refillRate
            = period)
    ∧ (NewTokenBucket 10 1000000000 0).tryConsume 5 0
        = (⟨10, 5, 1000000000, 0⟩, true)
    ∧ ((NewTokenBucket 10 1000000000 0).tryConsume 5 0).1.tryConsume 6 0
        = (⟨10, 5, 1000000000, 0⟩, false)
    ∧ (⟨10, 5, 1000000000, 0⟩ : TokenBucket).getStatus 3000000000
        = (⟨10, 8, 1000000000, 3000000000⟩, 8, 10, 4000000000)
    ∧ (⟨10, 8, 1000000000, 3000000000⟩ : TokenBucket).tryConsume 8 3000000000
        = (⟨10, 0, 1000000000, 3000000000⟩, true) := by
  refine ⟨?_, by decide, by decide, by decide, by decide⟩
  intro cap level period anchor now n h0 h1 hn hp ht
  unfold TokenBucket.tryConsume
  dsimp only
  rw [if_neg (by omega)]
  obtain ⟨e1, e2, e3, e4⟩ :=
    refill_fields ⟨cap, level, period, anchor⟩ now hp ht h1
  dsimp only at e1 e2 e3 e4
  by_cases hc : n ≤ min cap (level + (now - anchor) / period)
  · rw [if_pos (show n ≤ (TokenBucket.refill ⟨cap, level, period, anchor⟩
        now).tokens by rw [e1]; exact hc)]
    refine ⟨by simp [hc], ?_, ?_, ?_, ?_⟩ <;> dsimp only <;>
      simp [e1, e2, e3, e4, hc]
  · rw [if_neg (show ¬ n ≤ (TokenBucket.refill ⟨cap, level, period, anchor⟩
        now).tokens by rw [e1]; exact hc)]
    refine ⟨by simp [hc], ?_, ?_, ?_, ?_⟩ <;> dsimp only <;>
      simp [e1, e2, e3, e4, hc]

/-- Witness for `tokenBucket_transition_spec`: the general transition
instantiated at capacity 10, level 5, period 1 s, a request of 3 permits
two seconds later. -/
theorem tokenBucket_transition_spec_witness :
    (TokenBucket.tryConsume ⟨10, 5, 1000000000, 0⟩ 3 2000000000).2 = true :=
  ((tokenBucket_transition_spec.1 10 5 1000000000 0 2000000000 3 (by decide)
      (by decide) (by decide) (by decide) (by decide)).1).mpr (by decide)

/-- C2. Leaky bucket transition: from any sane state (`0 ≤ level ≤
capacity`) and any request to add `n ≥ 0` units at time `now ≥ anchorTime`,
`TryAdd` first drains `min(floor((now - anchorTime)/period), level)` units,
advancing `anchorTime` by exactly `drained * period`, then succeeds and adds
`n` iff `level + n ≤ capacity`, leaving the level otherwise unchanged; and
the spec's scenario with capacity 5 and leak period 200 ms: `TryAdd(5)` →
true with queue 5, `TryAdd(1)` → false with queue still 5, and 400 ms later
the status reports queue length 3 with available space 2. -/
theorem leakyBucket_transition_spec :
    (∀ cap queue period anchor now n : Int,
        0 ≤ queue → queue ≤ cap → 0 ≤ n → 0 < period → anchor ≤ now →
        ((LeakyBucket.tryAdd ⟨cap, queue, period, anchor⟩ n now).2 = true
          ↔ queue - min ((now - anchor) / period) queue + n ≤ cap)
        ∧ (LeakyBucket.tryAdd ⟨cap, queue, period, anchor⟩ n now).1.queue
            = (if queue - min ((now - anchor) / period) queue + n ≤ cap
               then queue - min ((now - anchor) / period) queue + n
               else queue - min ((now - anchor) / period) queue)
        ∧ (LeakyBucket.tryAdd ⟨cap, queue, period, anchor⟩ n now).1.lastLeak
            = anchor + (min ((now - anchor) / period) queue) * period
        ∧ (LeakyBucket.tryAdd ⟨cap, queue, period, anchor⟩ n now).1.capacity
            = cap
        ∧ (LeakyBucket.tryAdd ⟨cap, queue, period, anchor⟩ n now).1.leakRate
            = period)
    ∧ (NewLeakyBucket 5 200000000 0).tryAdd 5 0
        = (⟨5, 5, 200000000, 0⟩, true)
    ∧ ((NewLeakyBucket 5 200000000 0).tryAdd 5 0).1.tryAdd 1 0
        = (⟨5, 5, 200000000, 0⟩, false)
    ∧ (⟨5, 5, 200000000, 0⟩ : LeakyBucket).getStatus 400000000
        = (⟨5, 3, 200000000, 400000000⟩, 3, 5, 600000000)
    ∧ (getInMemoryLeakyBucketStatus ⟨5, 5, 200000000, 0⟩ 200000000
        400000000).tokensLeft = 2 := by
  refine ⟨?_, by decide, by decide, by decide, by decide⟩
  intro cap queue period anchor now n h0 h1 hn hp ht
  unfold LeakyBucket.tryAdd
  dsimp only
  rw [if_neg (by omega)]
  obtain ⟨e1, e2, e3, e4⟩ :=
    leak_fields ⟨cap, queue, period, anchor⟩ now hp ht h0
  dsimp only at e1 e2 e3 e4
  by_cases hc : queue - min ((now - anchor) / period) queue + n ≤ cap
  · rw [if_neg (show ¬ (LeakyBucket.leak ⟨cap, queue, period, anchor⟩
        now).capacity < (LeakyBucket.leak ⟨cap, queue, period, anchor⟩
        now).queue + n by rw [e1, e3]; omega)]
    refine ⟨by simp [hc], ?_, ?_, ?_, ?_⟩ <;> dsimp only <;>
      simp [e1, e2, e3, e4, hc]
  · rw [if_pos (show (LeakyBucket.leak ⟨cap, queue, period, anchor⟩
        now).capacity < (LeakyBucket.leak ⟨cap, queue, period, anchor⟩
        now).queue + n by rw [e1, e3]; omega)]
    refine ⟨by simp [hc], ?_, ?_, ?_, ?_⟩ <;> dsimp only <;>
      simp [e1, e2, e3, e4, hc]

/-- Witness for `leakyBucket_transition_spec`: the general transition
instantiated at capacity 5, queue 4, period 200 ms, a request to add 2
units 400 ms later. -/
theorem leakyBucket_transition_spec_witness :
    (LeakyBucket.tryAdd ⟨5, 4, 200000000, 0⟩ 2 400000000).2 = true :=
  ((leakyBucket_transition_spec.1 5 4 200000000 0 400000000 2 (by decide)
      (by decide) (by decide) (by decide) (by decide)).1).mpr (by decide)

/-- One refill keeps the token level within `[0, capacity]` and the static
fields unchanged. -/
theorem refill_preserves (tb : TokenBucket) (now : Int)
    (h0 : 0 ≤ tb.tokens) (h1 : tb.tokens ≤ tb.capacity) :
    0 ≤ (tb.refill now).tokens
    ∧ (tb.refill now).tokens ≤ tb.capacity
    ∧ (tb.refill now).capacity = tb.capacity
    ∧ (tb.refill now).refillRate = tb.refillRate := by
  unfold TokenBucket.refill
  dsimp only
  split
  · dsimp only
    refine ⟨by omega, by omega, rfl, rfl⟩
  · exact ⟨h0, h1, rfl, rfl⟩

/-- One refill moves the anchor forward by a non-negative whole number of
periods. -/
theorem refill_anchor_delta (tb : TokenBucket) (now : Int) :
    ∃ d : Int, 0 ≤ d
      ∧ (tb.refill now).lastRefill = tb.lastRefill + d * tb.refillRate := by
  unfold TokenBucket.refill
  dsimp only
  split
  · exact ⟨_, by omega, rfl⟩
  · exact ⟨0, le_refl 0, by ring⟩

/-- One `TryConsume` keeps the token level within `[0, capacity]`, keeps
the static fields, and moves the anchor forward by a non-negative whole
number of periods. -/
theorem tryConsume_preserves (tb : TokenBucket) (n now : Int)
    (h0 : 0 ≤ tb.tokens) (h1 : tb.tokens ≤ tb.capacity) :
    0 ≤ (tb.tryConsume n now).1.tokens
    ∧ (tb.tryConsume n now).1.tokens ≤ tb.capacity
    ∧ (tb.tryConsume n now).1.capacity = tb.capacity
    ∧ (tb.tryConsume n now).1.refillRate = tb.refillRate
    ∧ ∃ d : Int, 0 ≤ d
        ∧ (tb.tryConsume n now).1.lastRefill
            = tb.lastRefill + d * tb.refillRate := by
  obtain ⟨p0, p1, p2, p3⟩ := refill_preserves tb now h0 h1
  obtain ⟨d, hd, hdeq⟩ := refill_anchor_delta tb now
  unfold TokenBucket.tryConsume
  dsimp only
  split
  · exact ⟨h0, h1, rfl, rfl, 0, le_refl 0, by ring⟩
  · split <;> dsimp only
    · exact ⟨by omega, by omega, p2, p3, d, hd, hdeq⟩
    · exact ⟨p0, p1, p2, p3, d, hd, hdeq⟩

/-- One leak keeps the queue within `[0, capacity]` and the static fields
unchanged. -/
theorem leak_preserves (lb : LeakyBucket) (now : Int)
    (h0 : 0 ≤ lb.queue) (h1 : lb.queue ≤ lb.capacity) :
    0 ≤ (lb.leak now).queue
    ∧ (lb.leak now).queue ≤ lb.capacity
    ∧ (lb.leak now).capacity = lb.capacity
    ∧ (lb.leak now).leakRate = lb.leakRate := by
  unfold LeakyBucket.leak
  dsimp only
  split
  · dsimp only
    refine ⟨by omega, by omega, rfl, rfl⟩
  · exact ⟨h0, h1, rfl, rfl⟩

/-- One leak moves the anchor forward by a non-negative whole number of
periods. -/
theorem leak_anchor_delta (lb : LeakyBucket) (now : Int) :
    ∃ d : Int, 0 ≤ d
      ∧ (lb.leak now).lastLeak = lb.lastLeak + d * lb.leakRate := by
  unfold LeakyBucket.leak
  dsimp only
  split
  · rename_i hcond
    exact ⟨_, by omega, rfl⟩
  · exact ⟨0, le_refl 0, by ring⟩

/-- One `TryAdd` keeps the queue within `[0, capacity]`, keeps the static
fields, and moves the anchor forward by a non-negative whole number of
periods. -/
theorem tryAdd_preserves (lb : LeakyBucket) (n now : Int)
    (h0 : 0 ≤ lb.queue) (h1 : lb.queue ≤ lb.capacity) :
    0 ≤ (lb.tryAdd n now).1.queue
    ∧ (lb.tryAdd n now).1.queue ≤ lb.capacity
    ∧ (lb.tryAdd n now).1.capacity = lb.capacity
    ∧ (lb.tryAdd n now).1.leakRate = lb.leakRate
    ∧ ∃ d : Int, 0 ≤ d
        ∧ (lb.tryAdd n now).1.lastLeak = lb.lastLeak + d * lb.leakRate := by
  obtain ⟨p0, p1, p2, p3⟩ := leak_preserves lb now h0 h1
  obtain ⟨d, hd, hdeq⟩ := leak_anchor_delta lb now
  unfold LeakyBucket.tryAdd
  dsimp only
  split
  · exact ⟨h0, h1, rfl, rfl, 0, le_refl 0, by ring⟩
  · split <;> dsimp only
    · exact ⟨p0, p1, p2, p3, d, hd, hdeq⟩
    · rename_i hneg hfit
      exact ⟨by omega, by omega, p2, p3, d, hd, hdeq⟩

/-- The state component of the in-memory token-bucket status query is the
refilled bucket. -/
theorem getStatus_fst (tb : TokenBucket) (now : Int) :
    (tb.getStatus now).1 = tb.refill now := rfl

/-- The state component of the in-memory leaky-bucket status query is the
drained bucket. -/
theorem lb_getStatus_fst (lb : LeakyBucket) (now : Int) :
    (lb.getStatus now).1 = lb.leak now := rfl

/-- Inductive invariant for every reachable in-memory token-bucket state:
static fields fixed, level within bounds, anchor a whole number of periods
past the creation time. -/
def TBInv (cap rate t0 : Int) (tb : TokenBucket) : Prop :=
  tb.capacity = cap ∧ tb.refillRate = rate
  ∧ 0 ≤ tb.tokens ∧ tb.tokens ≤ cap
  ∧ ∃ k : Int, 0 ≤ k ∧ tb.lastRefill = t0 + k * rate

/-- Inductive invariant for every reachable in-memory leaky-bucket state. -/
def LBInv (cap rate t0 : Int) (lb : LeakyBucket) : Prop :=
  lb.capacity = cap ∧ lb.leakRate = rate
  ∧ 0 ≤ lb.queue ∧ lb.queue ≤ cap
  ∧ ∃ k : Int, 0 ≤ k ∧ lb.lastLeak = t0 + k * rate

theorem TBInv_applyOp {cap rate t0 : Int} {tb : TokenBucket}
    (h : TBInv cap rate t0 tb) (op : BucketOp) :
    TBInv cap rate t0 (tb.applyOp op) := by
  obtain ⟨hcap, hrate, h0, h1, k, hk, hanchor⟩ := h
  cases op with
  | acquire n now =>
    obtain ⟨q0, q1, q2, q3, d, hd, hdeq⟩ :=
      tryConsume_preserves tb n now h0 (by omega)
    exact ⟨by rw [TokenBucket.applyOp]; omega,
      by rw [TokenBucket.applyOp]; omega,
      by rw [TokenBucket.applyOp]; omega,
      by rw [TokenBucket.applyOp]; omega,
      k + d, by omega,
      by rw [TokenBucket.applyOp, hdeq, hanchor, hrate]; ring⟩
  | status now =>
    obtain ⟨q0, q1, q2, q3⟩ := refill_preserves tb now h0 (by omega)
    obtain ⟨d, hd, hdeq⟩ := refill_anchor_delta tb now
    exact ⟨by rw [TokenBucket.applyOp, getStatus_fst]; omega,
      by rw [TokenBucket.applyOp, getStatus_fst]; omega,
      by rw [TokenBucket.applyOp, getStatus_fst]; omega,
      by rw [TokenBucket.applyOp, getStatus_fst]; omega,
      k + d, by omega,
      by rw [TokenBucket.applyOp, getStatus_fst, hdeq, hanchor, hrate]; ring⟩

theorem LBInv_applyOp {cap rate t0 : Int} {lb : LeakyBucket}
    (h : LBInv cap rate t0 lb) (op : BucketOp) :
    LBInv cap rate t0 (lb.applyOp op) := by
  obtain ⟨hcap, hrate, h0, h1, k, hk, hanchor⟩ := h
  cases op with
  | acquire n now =>
    obtain ⟨q0, q1, q2, q3, d, hd, hdeq⟩ :=
      tryAdd_preserves lb n now h0 (by omega)
    exact ⟨by rw [LeakyBucket.applyOp]; omega,
      by rw [LeakyBucket.applyOp]; omega,
      by rw [LeakyBucket.applyOp]; omega,
      by rw [LeakyBucket.applyOp]; omega,
      k + d, by omega,
      by rw [LeakyBucket.applyOp, hdeq, hanchor, hrate]; ring⟩
  | status now =>
    obtain ⟨q0, q1, q2, q3⟩ := leak_preserves lb now h0 (by omega)
    obtain ⟨d, hd, hdeq⟩ := leak_anchor_delta lb now
    exact ⟨by rw [LeakyBucket.applyOp, lb_getStatus_fst]; omega,
      by rw [LeakyBucket.applyOp, lb_getStatus_fst]; omega,
      by rw [LeakyBucket.applyOp, lb_getStatus_fst]; omega,
      by rw [LeakyBucket.applyOp, lb_getStatus_fst]; omega,
      k + d, by omega,
      (by rw [LeakyBucket.applyOp, lb_getStatus_fst, hdeq, hanchor, hrate]
          ring)⟩

theorem TBInv_runOps {cap rate t0 : Int} {tb : TokenBucket}
    (h : TBInv cap rate t0 tb) (ops : List BucketOp) :
    TBInv cap rate t0 (tb.runOps ops) := by
  induction ops generalizing tb with
  | nil => exact h
  | cons op rest ih => exact ih (TBInv_applyOp h op)

theorem LBInv_runOps {cap rate t0 : Int} {lb : LeakyBucket}
    (h : LBInv cap rate t0 lb) (ops : List BucketOp) :
    LBInv cap rate t0 (lb.runOps ops) := by
  induction ops generalizing lb with
  | nil => exact h
  | cons op rest ih => exact ih (LBInv_applyOp h op)

/-- The operation `TryConsume` moves the anchor forward by a non-negative whole number
of periods, with no assumption on the request or the level. -/
theorem tryConsume_anchor_delta (tb : TokenBucket) (n now : Int) :
    ∃ d : Int, 0 ≤ d
      ∧ (tb.tryConsume n now).1.lastRefill
          = tb.lastRefill + d * tb.refillRate := by
  obtain ⟨d, hd, hdeq⟩ := refill_anchor_delta tb now
  unfold TokenBucket.tryConsume
  dsimp only
  split
  · exact ⟨0, le_refl 0, by ring⟩
  · split
    · exact ⟨d, hd, hdeq⟩
    · exact ⟨d, hd, hdeq⟩

/-- The operation `TryAdd` moves the anchor forward by a non-negative whole number of
periods, with no assumption on the request or the queue. -/
theorem tryAdd_anchor_delta (lb : LeakyBucket) (n now : Int) :
    ∃ d : Int, 0 ≤ d
      ∧ (lb.tryAdd n now).1.lastLeak = lb.lastLeak + d * lb.leakRate := by
  obtain ⟨d, hd, hdeq⟩ := leak_anchor_delta lb now
  unfold LeakyBucket.tryAdd
  dsimp only
  split
  · exact ⟨0, le_refl 0, by ring⟩
  · split
    · exact ⟨d, hd, hdeq⟩
    · exact ⟨d, hd, hdeq⟩

/-- With a positive period, no operation moves a token bucket's anchor
backwards. -/
theorem applyOp_anchor_mono (tb : TokenBucket) (op : BucketOp)
    (hr : 0 < tb.refillRate) :
    tb.lastRefill ≤ (tb.applyOp op).lastRefill := by
  cases op with
  | acquire n now =>
    obtain ⟨d, hd, hdeq⟩ := tryConsume_anchor_delta tb n now
    rw [TokenBucket.applyOp, hdeq]
    have := mul_nonneg hd hr.le
    omega
  | status now =>
    obtain ⟨d, hd, hdeq⟩ := refill_anchor_delta tb now
    rw [TokenBucket.applyOp, getStatus_fst, hdeq]
    have := mul_nonneg hd hr.le
    omega

/-- With a positive period, no operation moves a leaky bucket's anchor
backwards. -/
theorem lb_applyOp_anchor_mono (lb : LeakyBucket) (op : BucketOp)
    (hr : 0 < lb.leakRate) :
    lb.lastLeak ≤ (lb.applyOp op).lastLeak := by
  cases op with
  | acquire n now =>
    obtain ⟨d, hd, hdeq⟩ := tryAdd_anchor_delta lb n now
    rw [LeakyBucket.applyOp, hdeq]
    have := mul_nonneg hd hr.le
    omega
  | status now =>
    obtain ⟨d, hd, hdeq⟩ := leak_anchor_delta lb now
    rw [LeakyBucket.applyOp, lb_getStatus_fst, hdeq]
    have := mul_nonneg hd hr.le
    omega

/-- C4. Level invariant: starting from a freshly created bucket, every
finite sequence of admission attempts and status queries keeps
`0 ≤ level ≤ capacity` (for both algorithms), and the anchor time always
sits a non-negative whole number of periods past the creation instant;
moreover no single operation — in particular no failed one — ever moves the
anchor backwards. -/
theorem bucket_level_invariant :
    (∀ (cap rate t0 : Int) (ops : List BucketOp), 1 ≤ cap → 0 < rate →
        0 ≤ ((NewTokenBucket cap rate t0).runOps ops).tokens
        ∧ ((NewTokenBucket cap rate t0).runOps ops).tokens ≤ cap
        ∧ ∃ k : Int, 0 ≤ k
            ∧ ((NewTokenBucket cap rate t0).runOps ops).lastRefill
                = t0 + k * rate)
    ∧ (∀ (cap rate t0 : Int) (ops : List BucketOp), 1 ≤ cap → 0 < rate →
        0 ≤ ((NewLeakyBucket cap rate t0).runOps ops).queue
        ∧ ((NewLeakyBucket cap rate t0).runOps ops).queue ≤ cap
        ∧ ∃ k : Int, 0 ≤ k
            ∧ ((NewLeakyBucket cap rate t0).runOps ops).lastLeak
                = t0 + k * rate)
    ∧ (∀ (tb : TokenBucket) (op : BucketOp), 0 < tb.refillRate →
        tb.lastRefill ≤ (tb.applyOp op).lastRefill)
    ∧ (∀ (lb : LeakyBucket) (op : BucketOp), 0 < lb.leakRate →
        lb.lastLeak ≤ (lb.applyOp op).lastLeak) := by
  refine ⟨?_, ?_, fun tb op hr => applyOp_anchor_mono tb op hr,
    fun lb op hr => lb_applyOp_anchor_mono lb op hr⟩
  · intro cap rate t0 ops hcap hrate
    have hinv : TBInv cap rate t0 (NewTokenBucket cap rate t0) :=
      ⟨rfl, rfl, by simp [NewTokenBucket]; omega,
        by simp [NewTokenBucket], 0, le_refl 0, by simp [NewTokenBucket]⟩
    obtain ⟨e1, e2, e3, e4, k, hk, hke⟩ := TBInv_runOps hinv ops
    exact ⟨e3, e4, k, hk, hke⟩
  · intro cap rate t0 ops hcap hrate
    have hinv : LBInv cap rate t0 (NewLeakyBucket cap rate t0) :=
      ⟨rfl, rfl, by simp [NewLeakyBucket],
        by simp [NewLeakyBucket]; omega, 0, le_refl 0,
        by simp [NewLeakyBucket]⟩
    obtain ⟨e1, e2, e3, e4, k, hk, hke⟩ := LBInv_runOps hinv ops
    exact ⟨e3, e4, k, hk, hke⟩

/-- Witness for `bucket_level_invariant` at a concrete run: capacity 10,
period 1 s, a successful acquire, a failing (losing) acquire and a status
query. -/
theorem bucket_level_invariant_witness :
    0 ≤ ((NewTokenBucket 10 1000000000 0).runOps
        [.acquire 5 0, .acquire 6 0, .status 3000000000]).tokens :=
  (bucket_level_invariant.1 10 1000000000 0
    [.acquire 5 0, .acquire 6 0, .status 3000000000]
    (by decide) (by decide)).1

/-- Updating the token field with the value it already has (minus zero) is
the identity. -/
theorem tb_update_sub_zero (tb : TokenBucket) :
    ({ tb with tokens := tb.tokens - 0 } : TokenBucket) = tb := by
  cases tb
  simp

/-- Updating the queue field with the value it already has (plus zero) is
the identity. -/
theorem lb_update_add_zero (lb : LeakyBucket) :
    ({ lb with queue := lb.queue + 0 } : LeakyBucket) = lb := by
  cases lb
  simp

/-- C5 counterexample. The claim says `Acquire(key, 0, *)` succeeds
*without mutating state*; but a zero-permit request still runs the lazy
refill: from level 5 of 10 anchored at `t = 0` with a 1 s period, a
zero-permit request at `t = 1 s` succeeds yet changes the state (level
becomes 6 and the anchor advances). -/
theorem negzero_requests_cex :
    (TokenBucket.tryConsume ⟨10, 5, 1000000000, 0⟩ 0 1000000000).2 = true
    ∧ (TokenBucket.tryConsume ⟨10, 5, 1000000000, 0⟩ 0 1000000000).1
        = ⟨10, 6, 1000000000, 1000000000⟩
    ∧ (TokenBucket.tryConsume ⟨10, 5, 1000000000, 0⟩ 0 1000000000).1
        ≠ ⟨10, 5, 1000000000, 0⟩ := by decide

/-- C5 (amended). A negative request always fails and leaves the bucket
untouched, for both algorithms. A zero request always succeeds and consumes
nothing, but the lazy refill/drain still applies: the resulting state is
exactly the refilled (resp. drained) state, which differs from the original
once a whole period has elapsed. -/
theorem negzero_requests_amended :
    ∀ (tb : TokenBucket) (lb : LeakyBucket) (n now : Int),
      (n < 0 →
        tb.tryConsume n now = (tb, false) ∧ lb.tryAdd n now = (lb, false))
      ∧ (0 ≤ tb.tokens → tb.tokens ≤ tb.capacity →
          tb.tryConsume 0 now = (tb.refill now, true))
      ∧ (0 ≤ lb.queue → lb.queue ≤ lb.capacity →
          lb.tryAdd 0 now = (lb.leak now, true)) := by
  intro tb lb n now
  refine ⟨fun hn => ⟨?_, ?_⟩, fun h0 h1 => ?_, fun h0 h1 => ?_⟩
  · unfold TokenBucket.tryConsume
    rw [if_pos hn]
  · unfold LeakyBucket.tryAdd
    rw [if_pos hn]
  · obtain ⟨p0, p1, p2, p3⟩ := refill_preserves tb now h0 h1
    unfold TokenBucket.tryConsume
    dsimp only
    rw [if_neg (by omega), if_pos p0]
    rw [tb_update_sub_zero]
  · obtain ⟨p0, p1, p2, p3⟩ := leak_preserves lb now h0 h1
    unfold LeakyBucket.tryAdd
    dsimp only
    rw [if_neg (by omega), if_neg (by omega), lb_update_add_zero]

/-- Witness for `negzero_requests_amended`: a negative request at a
concrete bucket fails without touching it, and a zero request at the same
bucket succeeds returning the refilled state. -/
theorem negzero_requests_amended_witness :
    TokenBucket.tryConsume ⟨10, 5, 1000000000, 0⟩ (-1) 0
      = (⟨10, 5, 1000000000, 0⟩, false)
    ∧ TokenBucket.tryConsume ⟨10, 5, 1000000000, 0⟩ 0 500000000
      = (TokenBucket.refill ⟨10, 5, 1000000000, 0⟩ 500000000, true) :=
  ⟨((negzero_requests_amended ⟨10, 5, 1000000000, 0⟩ ⟨5, 0, 200000000, 0⟩
      (-1) 0).1 (by decide)).1,
    (negzero_requests_amended ⟨10, 5, 1000000000, 0⟩ ⟨5, 0, 200000000, 0⟩
      (-1) 500000000).2.1 (by decide) (by decide)⟩

/-- C3. The claim (and the README's "auto-failover") say a failing or
timed-out remote operation degrades to the in-process fallback engine for
that call. The code does not: `TokenBucketRedis.TryConsume` maps an `Eval`
error to `false`, and `RedisRateLimiterService.Acquire` consults the
fallback only when `GetClient` returns nil — which it never does. At the
failing input (resolved client, unreachable shard, request for 1 permit),
`Acquire` returns `false` with the fallback untouched and unused, even
though the fallback engine would have allowed the request. -/
theorem acquire_remote_error_denies :
    serviceAcquireTokenBucket true false (.valid ⟨10, 10, 1000000000, 0, 0⟩)
        (NewTokenBucket 10 1000000000 0) 10 1000000000 1 0
      = (.valid ⟨10, 10, 1000000000, 0, 0⟩, NewTokenBucket 10 1000000000 0,
          false, false)
    ∧ ((NewTokenBucket 10 1000000000 0).tryConsume 1 0).2 = true
    ∧ serviceAcquireLeakyBucket true false (.valid ⟨5, 0, 200000000, 0, 0⟩)
        (NewLeakyBucket 5 200000000 0) 5 200000000 1 0
      = (.valid ⟨5, 0, 200000000, 0, 0⟩, NewLeakyBucket 5 200000000 0,
          false, false)
    ∧ ((NewLeakyBucket 5 200000000 0).tryAdd 1 0).2 = true := by decide

/-- C8 counterexample. The claim says a corrupt stored record is treated as
"no prior state" (fresh bucket at full capacity) by the admission operation
too; but on a corrupt payload `cjson.decode` aborts the Lua script, `Eval`
errors, and `TryConsume` returns `false`, whereas from an absent record the
same one-permit request is allowed. -/
theorem corruption_tolerance_cex :
    (TokenBucketRedis.tryConsume true .corrupt 10 1000000000 1 0).2 = false
    ∧ (TokenBucketRedis.tryConsume true .absent 10 1000000000 1 0).2
        = true := by decide

/-- C8 (amended). A corrupt stored record is treated as "no prior state"
(fresh bucket at full capacity) by the status queries of both algorithms,
which return exactly the defaults used for an absent record; the admission
operations, however, fail closed: they return `false` and leave the corrupt
record in place. -/
theorem corruption_tolerance_amended :
    ∀ (cap rate now n m : Int),
      TokenBucketRedis.getStatus .corrupt cap rate now
        = TokenBucketRedis.getStatus .absent cap rate now
      ∧ LeakyBucketRedis.getStatus .corrupt cap rate now
        = LeakyBucketRedis.getStatus .absent cap rate now
      ∧ TokenBucketRedis.getStatus .corrupt cap rate now
        = (cap, cap, now + rate)
      ∧ LeakyBucketRedis.getStatus .corrupt cap rate now
        = (0, cap, now + rate)
      ∧ TokenBucketRedis.tryConsume true .corrupt cap rate n now
        = (.corrupt, false)
      ∧ LeakyBucketRedis.tryAdd true .corrupt cap rate m now
        = (.corrupt, false) := by
  intro cap rate now n m
  refine ⟨rfl, rfl, rfl, rfl, ?_, ?_⟩
  · unfold TokenBucketRedis.tryConsume
    split
    · rfl
    · rfl
  · unfold LeakyBucketRedis.tryAdd
    split
    · rfl
    · rfl

/-- Refill never changes the capacity field. -/
theorem refill_capacity (tb : TokenBucket) (now : Int) :
    (tb.refill now).capacity = tb.capacity := by
  unfold TokenBucket.refill
  dsimp only
  split <;> rfl

/-- Refill never changes the period field. -/
theorem refill_rateConst (tb : TokenBucket) (now : Int) :
    (tb.refill now).refillRate = tb.refillRate := by
  unfold TokenBucket.refill
  dsimp only
  split <;> rfl

/-- Leak never changes the capacity field. -/
theorem leak_capacity (lb : LeakyBucket) (now : Int) :
    (lb.leak now).capacity = lb.capacity := by
  unfold LeakyBucket.leak
  dsimp only
  split <;> rfl

/-- Leak never changes the period field. -/
theorem leak_rateConst (lb : LeakyBucket) (now : Int) :
    (lb.leak now).leakRate = lb.leakRate := by
  unfold LeakyBucket.leak
  dsimp only
  split <;> rfl

/-- The operation `TryConsume` never changes the capacity or period fields. -/
theorem tryConsume_const (tb : TokenBucket) (n now : Int) :
    (tb.tryConsume n now).1.capacity = tb.capacity
    ∧ (tb.tryConsume n now).1.refillRate = tb.refillRate := by
  unfold TokenBucket.tryConsume
  dsimp only
  split
  · exact ⟨rfl, rfl⟩
  · split <;>
      exact ⟨refill_capacity tb now, refill_rateConst tb now⟩

/-- The operation `TryAdd` never changes the capacity or period fields. -/
theorem tryAdd_const (lb : LeakyBucket) (n now : Int) :
    (lb.tryAdd n now).1.capacity = lb.capacity
    ∧ (lb.tryAdd n now).1.leakRate = lb.leakRate := by
  unfold LeakyBucket.tryAdd
  dsimp only
  split
  · exact ⟨rfl, rfl⟩
  · split <;>
      exact ⟨leak_capacity lb now, leak_rateConst lb now⟩

/-- The Lua refill arithmetic (floor division) computes the same refilled
level and anchor as the Go in-memory refill (truncated division), for a
positive period. -/
theorem lua_refill_eq (tb : TokenBucket) (now : Int) (hr : 0 < tb.refillRate) :
    (if 0 < (now - tb.lastRefill).fdiv tb.refillRate
     then min tb.capacity
        (tb.tokens + (now - tb.lastRefill).fdiv tb.refillRate)
     else tb.tokens) = (tb.refill now).tokens
    ∧ (if 0 < (now - tb.lastRefill).fdiv tb.refillRate
       then tb.lastRefill
          + (now - tb.lastRefill).fdiv tb.refillRate * tb.refillRate
       else tb.lastRefill) = (tb.refill now).lastRefill := by
  unfold TokenBucket.refill
  dsimp only
  rcases tdiv_fdiv_agree (e := now - tb.lastRefill) hr with h | ⟨h1, h2⟩
  · rw [← h]
    by_cases hc : 0 < (now - tb.lastRefill).tdiv tb.refillRate
    · simp only [if_pos hc]
      exact ⟨trivial, trivial⟩
    · simp only [if_neg hc]
      exact ⟨trivial, trivial⟩
  · rw [if_neg (show ¬ 0 < (now - tb.lastRefill).fdiv tb.refillRate by omega),
      if_neg (show ¬ 0 < (now - tb.lastRefill).fdiv tb.refillRate by omega),
      if_neg (show ¬ 0 < (now - tb.lastRefill).tdiv tb.refillRate by omega)]
    exact ⟨rfl, rfl⟩

/-- The Lua leak arithmetic computes the same drained queue and anchor as
the Go in-memory leak, for a positive period. -/
theorem lua_leak_eq (lb : LeakyBucket) (now : Int) (hr : 0 < lb.leakRate) :
    lb.queue - (if 0 < (now - lb.lastLeak).fdiv lb.leakRate ∧ 0 < lb.queue
        then min ((now - lb.lastLeak).fdiv lb.leakRate) lb.queue else 0)
      = (lb.leak now).queue
    ∧ lb.lastLeak + (if 0 < (now - lb.lastLeak).fdiv lb.leakRate ∧ 0 < lb.queue
        then min ((now - lb.lastLeak).fdiv lb.leakRate) lb.queue
        else 0) * lb.leakRate
      = (lb.leak now).lastLeak := by
  unfold LeakyBucket.leak
  dsimp only
  rcases tdiv_fdiv_agree (e := now - lb.lastLeak) hr with h | ⟨h1, h2⟩
  · rw [← h]
    by_cases hc : 0 < (now - lb.lastLeak).tdiv lb.leakRate ∧ 0 < lb.queue
    · simp only [if_pos hc]
      exact ⟨trivial, trivial⟩
    · simp only [if_neg hc]
      exact ⟨by omega, by ring⟩
  · have hfd : ¬ (0 < (now - lb.lastLeak).fdiv lb.leakRate ∧ 0 < lb.queue) :=
      fun hcc => absurd hcc.1 (by omega)
    have htd : ¬ (0 < (now - lb.lastLeak).tdiv lb.leakRate ∧ 0 < lb.queue) :=
      fun hcc => absurd hcc.1 (by omega)
    rw [if_neg hfd, if_neg htd]
    exact ⟨by omega, by ring⟩

/-- One Redis-side token-bucket admission from a stored record matching an
in-memory bucket yields the same decision and a record matching the bucket's
next state. -/
theorem tb_step_match (tb : TokenBucket) (u n now : Int)
    (hr : 0 < tb.refillRate) :
    (TokenBucketRedis.tryConsume true
        (.valid ⟨tb.capacity, tb.tokens, tb.refillRate, tb.lastRefill, u⟩)
        tb.capacity tb.refillRate n now).2 = (tb.tryConsume n now).2
    ∧ ∃ u2, (TokenBucketRedis.tryConsume true
        (.valid ⟨tb.capacity, tb.tokens, tb.refillRate, tb.lastRefill, u⟩)
        tb.capacity tb.refillRate n now).1
      = .valid ⟨(tb.tryConsume n now).1.capacity,
          (tb.tryConsume n now).1.tokens,
          (tb.tryConsume n now).1.refillRate,
          (tb.tryConsume n now).1.lastRefill, u2⟩ := by
  obtain ⟨etok, eanch⟩ := lua_refill_eq tb now hr
  unfold TokenBucketRedis.tryConsume TokenBucket.tryConsume
  dsimp only
  by_cases hn : n < 0
  · simp only [if_pos hn]
    exact ⟨by trivial, u, rfl⟩
  · simp only [if_neg hn]
    unfold evalTokenBucket luaTokenBucketScript luaTokenBucketCore
    simp only [if_true]
    try dsimp only
    rw [etok, eanch]
    by_cases hc : n ≤ (tb.refill now).tokens
    · simp only [if_pos hc]
      try dsimp only
      exact ⟨by trivial, now,
        by rw [refill_capacity, refill_rateConst]⟩
    · simp only [if_neg hc]
      try dsimp only
      exact ⟨by trivial, now,
        by rw [refill_capacity, refill_rateConst]⟩

/-- One Redis-side leaky-bucket admission from a stored record matching an
in-memory bucket yields the same decision and a record matching the bucket's
next state. -/
theorem lb_step_match (lb : LeakyBucket) (u n now : Int)
    (hr : 0 < lb.leakRate) :
    (LeakyBucketRedis.tryAdd true
        (.valid ⟨lb.capacity, lb.queue, lb.leakRate, lb.lastLeak, u⟩)
        lb.capacity lb.leakRate n now).2 = (lb.tryAdd n now).2
    ∧ ∃ u2, (LeakyBucketRedis.tryAdd true
        (.valid ⟨lb.capacity, lb.queue, lb.leakRate, lb.lastLeak, u⟩)
        lb.capacity lb.leakRate n now).1
      = .valid ⟨(lb.tryAdd n now).1.capacity, (lb.tryAdd n now).1.queue,
          (lb.tryAdd n now).1.leakRate, (lb.tryAdd n now).1.lastLeak, u2⟩ := by
  obtain ⟨eq1, eq2⟩ := lua_leak_eq lb now hr
  unfold LeakyBucketRedis.tryAdd LeakyBucket.tryAdd
  dsimp only
  by_cases hn : n < 0
  · simp only [if_pos hn]
    exact ⟨by trivial, u, rfl⟩
  · simp only [if_neg hn]
    unfold evalLeakyBucket luaLeakyBucketScript luaLeakyBucketCore
    simp only [if_true]
    try dsimp only
    rw [eq1, eq2]
    by_cases hc : (lb.leak now).queue + n ≤ lb.capacity
    · rw [if_pos hc,
        if_neg (show ¬ (lb.leak now).capacity < (lb.leak now).queue + n by
          rw [leak_capacity]; omega)]
      try dsimp only
      exact ⟨by trivial, now, by rw [leak_capacity, leak_rateConst]⟩
    · rw [if_neg hc,
        if_pos (show (lb.leak now).capacity < (lb.leak now).queue + n by
          rw [leak_capacity]; omega)]
      try dsimp only
      exact ⟨by trivial, now, by rw [leak_capacity, leak_rateConst]⟩

/-- Unfolding of one step of the in-memory token-bucket run. -/
theorem runConsume_cons (tb : TokenBucket) (n now : Int)
    (rest : List (Int × Int)) :
    tb.runConsume ((n, now) :: rest)
      = (((tb.tryConsume n now).1.runConsume rest).1,
         (tb.tryConsume n now).2
           :: ((tb.tryConsume n now).1.runConsume rest).2) := rfl

/-- Unfolding of one step of the Redis token-bucket run. -/
theorem luaRunTokenBucket_cons (s : Stored TBRecord) (cap rate n now : Int)
    (rest : List (Int × Int)) :
    luaRunTokenBucket s cap rate ((n, now) :: rest)
      = ((luaRunTokenBucket
            (TokenBucketRedis.tryConsume true s cap rate n now).1
            cap rate rest).1,
         (TokenBucketRedis.tryConsume true s cap rate n now).2
           :: (luaRunTokenBucket
                (TokenBucketRedis.tryConsume true s cap rate n now).1
                cap rate rest).2) := rfl

/-- Unfolding of one step of the in-memory leaky-bucket run. -/
theorem runAdd_cons (lb : LeakyBucket) (n now : Int)
    (rest : List (Int × Int)) :
    lb.runAdd ((n, now) :: rest)
      = (((lb.tryAdd n now).1.runAdd rest).1,
         (lb.tryAdd n now).2 :: ((lb.tryAdd n now).1.runAdd rest).2) := rfl

/-- Unfolding of one step of the Redis leaky-bucket run. -/
theorem luaRunLeakyBucket_cons (s : Stored LBRecord) (cap rate n now : Int)
    (rest : List (Int × Int)) :
    luaRunLeakyBucket s cap rate ((n, now) :: rest)
      = ((luaRunLeakyBucket
            (LeakyBucketRedis.tryAdd true s cap rate n now).1
            cap rate rest).1,
         (LeakyBucketRedis.tryAdd true s cap rate n now).2
           :: (luaRunLeakyBucket
                (LeakyBucketRedis.tryAdd true s cap rate n now).1
                cap rate rest).2) := rfl

/-- Whole-sequence correspondence for the token bucket: starting from a
stored record matching an in-memory bucket, the Redis engine and the
in-memory engine produce the same decision list and matching final
levels and anchors. -/
theorem luaRun_match_tb (cap rate : Int) (hr : 0 < rate) :
    ∀ (ops : List (Int × Int)) (tokens anchor u : Int),
      (luaRunTokenBucket (.valid ⟨cap, tokens, rate, anchor, u⟩) cap rate
          ops).2
        = (TokenBucket.runConsume ⟨cap, tokens, rate, anchor⟩ ops).2
      ∧ ∃ u2, (luaRunTokenBucket (.valid ⟨cap, tokens, rate, anchor, u⟩) cap
          rate ops).1
        = .valid ⟨cap,
            (TokenBucket.runConsume ⟨cap, tokens, rate, anchor⟩ ops).1.tokens,
            rate,
            (TokenBucket.runConsume
              ⟨cap, tokens, rate, anchor⟩ ops).1.lastRefill,
            u2⟩ := by
  intro ops
  induction ops with
  | nil =>
    intro tokens anchor u
    exact ⟨rfl, u, rfl⟩
  | cons p rest ih =>
    intro tokens anchor u
    obtain ⟨n, now⟩ := p
    obtain ⟨hd2, u2, hd1⟩ :=
      tb_step_match ⟨cap, tokens, rate, anchor⟩ u n now hr
    obtain ⟨hc1, hc2⟩ := tryConsume_const ⟨cap, tokens, rate, anchor⟩ n now
    dsimp only at hd2 hd1 hc1 hc2
    rw [hc1] at hd1
    rw [hc2] at hd1
    have heta : (TokenBucket.tryConsume ⟨cap, tokens, rate, anchor⟩ n now).1
        = (⟨cap,
            (TokenBucket.tryConsume
              ⟨cap, tokens, rate, anchor⟩ n now).1.tokens,
            rate,
            (TokenBucket.tryConsume
              ⟨cap, tokens, rate, anchor⟩ n now).1.lastRefill⟩
            : TokenBucket) := by
      cases htc : (TokenBucket.tryConsume ⟨cap, tokens, rate, anchor⟩ n now).1
      rw [htc] at hc1 hc2
      dsimp only at hc1 hc2
      rw [hc1, hc2]
    obtain ⟨ih2, u3, ih1⟩ := ih
      (TokenBucket.tryConsume ⟨cap, tokens, rate, anchor⟩ n now).1.tokens
      (TokenBucket.tryConsume ⟨cap, tokens, rate, anchor⟩ n now).1.lastRefill
      u2
    rw [luaRunTokenBucket_cons, runConsume_cons]
    dsimp only
    rw [hd2, hd1, heta]
    dsimp only
    exact ⟨by rw [ih2], u3, by rw [ih1]⟩

/-- Whole-sequence correspondence for the leaky bucket. -/
theorem luaRun_match_lb (cap rate : Int) (hr : 0 < rate) :
    ∀ (ops : List (Int × Int)) (queue anchor u : Int),
      (luaRunLeakyBucket (.valid ⟨cap, queue, rate, anchor, u⟩) cap rate
          ops).2
        = (LeakyBucket.runAdd ⟨cap, queue, rate, anchor⟩ ops).2
      ∧ ∃ u2, (luaRunLeakyBucket (.valid ⟨cap, queue, rate, anchor, u⟩) cap
          rate ops).1
        = .valid ⟨cap,
            (LeakyBucket.runAdd ⟨cap, queue, rate, anchor⟩ ops).1.queue,
            rate,
            (LeakyBucket.runAdd ⟨cap, queue, rate, anchor⟩ ops).1.lastLeak,
            u2⟩ := by
  intro ops
  induction ops with
  | nil =>
    intro queue anchor u
    exact ⟨rfl, u, rfl⟩
  | cons p rest ih =>
    intro queue anchor u
    obtain ⟨n, now⟩ := p
    obtain ⟨hd2, u2, hd1⟩ :=
      lb_step_match ⟨cap, queue, rate, anchor⟩ u n now hr
    obtain ⟨hc1, hc2⟩ := tryAdd_const ⟨cap, queue, rate, anchor⟩ n now
    dsimp only at hd2 hd1 hc1 hc2
    rw [hc1] at hd1
    rw [hc2] at hd1
    have heta : (LeakyBucket.tryAdd ⟨cap, queue, rate, anchor⟩ n now).1
        = (⟨cap,
            (LeakyBucket.tryAdd ⟨cap, queue, rate, anchor⟩ n now).1.queue,
            rate,
            (LeakyBucket.tryAdd ⟨cap, queue, rate, anchor⟩ n now).1.lastLeak⟩
            : LeakyBucket) := by
      cases htc : (LeakyBucket.tryAdd ⟨cap, queue, rate, anchor⟩ n now).1
      rw [htc] at hc1 hc2
      dsimp only at hc1 hc2
      rw [hc1, hc2]
    obtain ⟨ih2, u3, ih1⟩ := ih
      (LeakyBucket.tryAdd ⟨cap, queue, rate, anchor⟩ n now).1.queue
      (LeakyBucket.tryAdd ⟨cap, queue, rate, anchor⟩ n now).1.lastLeak
      u2
    rw [luaRunLeakyBucket_cons, runAdd_cons]
    dsimp only
    rw [hd2, hd1, heta]
    dsimp only
    exact ⟨by rw [ih2], u3, by rw [ih1]⟩

/-- On a key with no stored record, the first non-negative request makes
the Redis token-bucket engine behave exactly as if the key held a full
bucket anchored at that request's time. -/
theorem luaRun_tb_absent_eq_full (cap rate n t : Int)
    (ops : List (Int × Int)) (hn : 0 ≤ n) :
    luaRunTokenBucket .absent cap rate ((n, t) :: ops)
      = luaRunTokenBucket (.valid ⟨cap, cap, rate, t, 0⟩) cap rate
          ((n, t) :: ops) := by
  have hw : TokenBucketRedis.tryConsume true .absent cap rate n t
      = TokenBucketRedis.tryConsume true (.valid ⟨cap, cap, rate, t, 0⟩)
          cap rate n t := by
    unfold TokenBucketRedis.tryConsume
    simp only [if_neg (show ¬ n < 0 by omega)]
    rfl
  rw [luaRunTokenBucket_cons, luaRunTokenBucket_cons, hw]

/-- On a key with no stored record, the first non-negative request makes
the Redis leaky-bucket engine behave exactly as if the key held an empty
queue anchored at that request's time. -/
theorem luaRun_lb_absent_eq_empty (cap rate n t : Int)
    (ops : List (Int × Int)) (hn : 0 ≤ n) :
    luaRunLeakyBucket .absent cap rate ((n, t) :: ops)
      = luaRunLeakyBucket (.valid ⟨cap, 0, rate, t, 0⟩) cap rate
          ((n, t) :: ops) := by
  have hw : LeakyBucketRedis.tryAdd true .absent cap rate n t
      = LeakyBucketRedis.tryAdd true (.valid ⟨cap, 0, rate, t, 0⟩)
          cap rate n t := by
    unfold LeakyBucketRedis.tryAdd
    simp only [if_neg (show ¬ n < 0 by omega)]
    rfl
  rw [luaRunLeakyBucket_cons, luaRunLeakyBucket_cons, hw]

/-- C6 counterexample. The claim quantifies over *every* operation
sequence with identical request sizes and timestamps, but a sequence whose
first request is negative diverges: the in-memory fallback bucket is
created (and anchored) at the time of the first call even though the
negative request is rejected, while the Redis engine creates its record
only at the first non-negative request. With capacity 10 and period 10 ns,
the sequence `[(-1, 0), (10, 5), (1, 12)]` yields `[false, true, false]`
remotely but `[false, true, true]` locally — and equally for the leaky
bucket. -/
theorem fallback_equivalence_cex :
    (luaRunTokenBucket .absent 10 10 [(-1, 0), (10, 5), (1, 12)]).2
        = [false, true, false]
    ∧ ((NewTokenBucket 10 10 0).runConsume [(-1, 0), (10, 5), (1, 12)]).2
        = [false, true, true]
    ∧ (luaRunLeakyBucket .absent 10 10 [(-1, 0), (10, 5), (1, 12)]).2
        = [false, true, false]
    ∧ ((NewLeakyBucket 10 10 0).runAdd [(-1, 0), (10, 5), (1, 12)]).2
        = [false, true, true] := by decide

/-- C6 (amended). Remote/local engine equivalence holds (a) from any pair
of matching states — a stored record and an in-memory bucket with the same
capacity, level, period and anchor — for every operation sequence: the
decision lists coincide and the final levels and anchors coincide; and (b)
from scratch, for every sequence whose *first* request size is
non-negative (so that both engines create their state at the same
instant), for both algorithms. The period must be positive. -/
theorem fallback_equivalence_amended :
    (∀ (cap rate tokens anchor u : Int) (ops : List (Int × Int)), 0 < rate →
      (luaRunTokenBucket (.valid ⟨cap, tokens, rate, anchor, u⟩) cap rate
          ops).2
        = (TokenBucket.runConsume ⟨cap, tokens, rate, anchor⟩ ops).2
      ∧ ∃ u2, (luaRunTokenBucket (.valid ⟨cap, tokens, rate, anchor, u⟩)
          cap rate ops).1
        = .valid ⟨cap,
            (TokenBucket.runConsume ⟨cap, tokens, rate, anchor⟩ ops).1.tokens,
            rate,
            (TokenBucket.runConsume
              ⟨cap, tokens, rate, anchor⟩ ops).1.lastRefill, u2⟩)
    ∧ (∀ (cap rate queue anchor u : Int) (ops : List (Int × Int)), 0 < rate →
      (luaRunLeakyBucket (.valid ⟨cap, queue, rate, anchor, u⟩) cap rate
          ops).2
        = (LeakyBucket.runAdd ⟨cap, queue, rate, anchor⟩ ops).2
      ∧ ∃ u2, (luaRunLeakyBucket (.valid ⟨cap, queue, rate, anchor, u⟩)
          cap rate ops).1
        = .valid ⟨cap,
            (LeakyBucket.runAdd ⟨cap, queue, rate, anchor⟩ ops).1.queue,
            rate,
            (LeakyBucket.runAdd ⟨cap, queue, rate, anchor⟩ ops).1.lastLeak,
            u2⟩)
    ∧ (∀ (cap rate n t : Int) (ops : List (Int × Int)), 0 < rate → 0 ≤ n →
      (luaRunTokenBucket .absent cap rate ((n, t) :: ops)).2
        = ((NewTokenBucket cap rate t).runConsume ((n, t) :: ops)).2)
    ∧ (∀ (cap rate n t : Int) (ops : List (Int × Int)), 0 < rate → 0 ≤ n →
      (luaRunLeakyBucket .absent cap rate ((n, t) :: ops)).2
        = ((NewLeakyBucket cap rate t).runAdd ((n, t) :: ops)).2) := by
  refine ⟨?_, ?_, ?_, ?_⟩
  · intro cap rate tokens anchor u ops hr
    exact luaRun_match_tb cap rate hr ops tokens anchor u
  · intro cap rate queue anchor u ops hr
    exact luaRun_match_lb cap rate hr ops queue anchor u
  · intro cap rate n t ops hr hn
    rw [luaRun_tb_absent_eq_full cap rate n t ops hn]
    exact (luaRun_match_tb cap rate hr ((n, t) :: ops) cap t 0).1
  · intro cap rate n t ops hr hn
    rw [luaRun_lb_absent_eq_empty cap rate n t ops hn]
    exact (luaRun_match_lb cap rate hr ((n, t) :: ops) 0 t 0).1

/-- Witness for `fallback_equivalence_amended`: a concrete two-request
sequence from a stored record matching a half-full bucket gives the same
decisions on both engines. -/
theorem fallback_equivalence_amended_witness :
    (luaRunTokenBucket (.valid ⟨10, 5, 1000000000, 0, 0⟩) 10 1000000000
        [(3, 0), (8, 3000000000)]).2
      = (TokenBucket.runConsume ⟨10, 5, 1000000000, 0⟩
          [(3, 0), (8, 3000000000)]).2 :=
  (fallback_equivalence_amended.1 10 1000000000 5 0 0
    [(3, 0), (8, 3000000000)] (by decide)).1

/-- C7. Routing determinism: for every key and every fixed shard count
`N ≥ 1`, `GetClientIndex` returns exactly the CRC-32 (IEEE) checksum of the
key modulo `N`, which is a well-defined index below `N`; being a pure
function of the key and `N`, repeated resolutions under an unchanged shard
configuration give the same index. The final conjunct pins the CRC-32
embedding to the standard check value. -/
theorem routing_determinism :
    (∀ (key : List Nat) (n : Nat), 1 ≤ n →
        RedisManager.getClientIndex key n = crc32ChecksumIEEE key % n
        ∧ RedisManager.getClientIndex key n < n)
    ∧ crc32ChecksumIEEE [49, 50, 51, 52, 53, 54, 55, 56, 57]
        = 0xCBF43926 := by
  refine ⟨?_, by decide⟩
  intro key n hn
  exact ⟨rfl, Nat.mod_lt _ (by omega)⟩

/-- Witness for `routing_determinism`: the key "user1" with two shards. -/
theorem routing_determinism_witness :
    RedisManager.getClientIndex [117, 115, 101, 114, 49] 2
      = crc32ChecksumIEEE [117, 115, 101, 114, 49] % 2
    ∧ RedisManager.getClientIndex [117, 115, 101, 114, 49] 2 < 2 :=
  routing_determinism.1 [117, 115, 101, 114, 49] 2 (by decide)

/-- C9. Primary-algorithm selection in `GetStatus`: if exactly one
algorithm has prior state, it is primary; if both have state and exactly
one is not at full capacity, that one is primary; if both have state and
both are at full capacity, token bucket is primary; if neither has state,
the token-bucket status (carrying `hasState = false`) is reported. -/
theorem getStatus_primary_selection :
    ∀ tbs lbs : AlgorithmStatus,
      (tbs.hasState = true → lbs.hasState = false →
        selectPrimary tbs lbs = ("token_bucket", tbs))
      ∧ (tbs.hasState = false → lbs.hasState = true →
        selectPrimary tbs lbs = ("leaky_bucket", lbs))
      ∧ (tbs.hasState = true → lbs.hasState = true →
          tbs.tokensLeft = tbs.capacity → lbs.tokensLeft < lbs.capacity →
        selectPrimary tbs lbs = ("leaky_bucket", lbs))
      ∧ (tbs.hasState = true → lbs.hasState = true →
          tbs.tokensLeft < tbs.capacity → lbs.tokensLeft = lbs.capacity →
        selectPrimary tbs lbs = ("token_bucket", tbs))
      ∧ (tbs.hasState = true → lbs.hasState = true →
          tbs.tokensLeft = tbs.capacity → lbs.tokensLeft = lbs.capacity →
        selectPrimary tbs lbs = ("token_bucket", tbs))
      ∧ (tbs.hasState = false → lbs.hasState = false →
        selectPrimary tbs lbs = ("token_bucket", tbs)
        ∧ (selectPrimary tbs lbs).2.hasState = false) := by
  intro tbs lbs
  unfold selectPrimary
  refine ⟨?_, ?_, ?_, ?_, ?_, ?_⟩
  · intro h1 h2
    simp [h1, h2]
  · intro h1 h2
    simp [h1, h2]
  · intro h1 h2 h3 h4
    simp [h1, h2, h3, h4, lt_irrefl]
  · intro h1 h2 h3 h4
    simp [h1, h2, h3, h4]
  · intro h1 h2 h3 h4
    simp [h1, h2, h3, h4, lt_irrefl]
  · intro h1 h2
    simp [h1, h2]

/-- Witness for `getStatus_primary_selection`: a full token bucket beside
an active leaky bucket selects the leaky bucket as primary. -/
theorem getStatus_primary_selection_witness :
    selectPrimary
        ⟨"token_bucket", 10, 10, 1000000000, 1000000000, false, true⟩
        ⟨"leaky_bucket", 3, 5, 1000000000, 1000000000, false, true⟩
      = ("leaky_bucket",
          ⟨"leaky_bucket", 3, 5, 1000000000, 1000000000, false, true⟩) :=
  (getStatus_primary_selection
    ⟨"token_bucket", 10, 10, 1000000000, 1000000000, false, true⟩
    ⟨"leaky_bucket", 3, 5, 1000000000, 1000000000, false, true⟩).2.2.1
    rfl rfl rfl (by decide)

/-- A freshly created token bucket does not refill at its creation
instant. -/
theorem fresh_refill_noop (cap period t0 : Int) :
    (NewTokenBucket cap period t0).refill t0 = NewTokenBucket cap period t0
    := by
  unfold TokenBucket.refill NewTokenBucket
  dsimp only
  rw [sub_self, Int.zero_tdiv, if_neg (lt_irrefl 0)]

/-- C10. The HTTP `AcquireHandler` rewrites a zero or negative requested
token count to 1 before invoking `Acquire`, so through the public endpoint
such a request is processed as a request for exactly one permit — it
consumes one unit of capacity on success — whereas the engine itself would
have rejected a negative request outright and allowed a zero request
without consuming anything. -/
theorem handler_normalizes_nonpositive :
    ∀ (t cap period t0 : Int), t ≤ 0 → 1 ≤ cap →
      acquireHandlerTokens t = 1
      ∧ ((NewTokenBucket cap period t0).tryConsume (acquireHandlerTokens t)
          t0).2 = true
      ∧ ((NewTokenBucket cap period t0).tryConsume (acquireHandlerTokens t)
          t0).1.tokens = cap - 1
      ∧ (t < 0 → (NewTokenBucket cap period t0).tryConsume t t0
          = (NewTokenBucket cap period t0, false))
      ∧ (t = 0 → (NewTokenBucket cap period t0).tryConsume t t0
          = (NewTokenBucket cap period t0, true)) := by
  intro t cap period t0 ht hcap
  have hn : acquireHandlerTokens t = 1 := by
    unfold acquireHandlerTokens
    rw [if_pos ht]
  have hcons : (NewTokenBucket cap period t0).tryConsume 1 t0
      = ({ NewTokenBucket cap period t0 with tokens := cap - 1 }, true) := by
    unfold TokenBucket.tryConsume
    dsimp only
    rw [if_neg (by omega), fresh_refill_noop,
      if_pos (show (1 : Int) ≤ (NewTokenBucket cap period t0).tokens by
        dsimp [NewTokenBucket]; omega)]
    dsimp [NewTokenBucket]
  refine ⟨hn, ?_, ?_, ?_, ?_⟩
  · rw [hn, hcons]
  · rw [hn, hcons]
  · intro hneg
    unfold TokenBucket.tryConsume
    rw [if_pos hneg]
  · intro hzero
    subst hzero
    unfold TokenBucket.tryConsume
    dsimp only
    rw [if_neg (by omega), fresh_refill_noop,
      if_pos (show (0 : Int) ≤ (NewTokenBucket cap period t0).tokens by
        dsimp [NewTokenBucket]; omega)]
    simp [NewTokenBucket]

/-- Witness for `handler_normalizes_nonpositive`: a request for −5 tokens
through the handler becomes a request for 1 and consumes one permit from a
full bucket of 10. -/
theorem handler_normalizes_nonpositive_witness :
    acquireHandlerTokens (-5) = 1
    ∧ ((NewTokenBucket 10 1000000000 0).tryConsume
        (acquireHandlerTokens (-5)) 0).2 = true
    ∧ ((NewTokenBucket 10 1000000000 0).tryConsume
        (acquireHandlerTokens (-5)) 0).1.tokens = 9 :=
  ⟨(handler_normalizes_nonpositive (-5) 10 1000000000 0 (by decide)
      (by decide)).1,
    (handler_normalizes_nonpositive (-5) 10 1000000000 0 (by decide)
      (by decide)).2.1,
    (handler_normalizes_nonpositive (-5) 10 1000000000 0 (by decide)
      (by decide)).2.2.1⟩

end RateLimiter
